import Mathlib

/-!
Verification of the chunked-document flashcard pipeline
(`src/app/api/flashcards/route.ts` and `src/app/actions.ts`).

The pipeline: a POST handler receives a form with a PDF file, loads it,
splits it into 100-page chunks when it has more than 500 pages, calls an
external generator once per chunk sequentially, concatenates the returned
flash cards, and serializes them to CSV with doubled-quote escaping.

The shallow embedding below translates each function of the route into a
Lean definition: the `splitPdf` page-range loop, the chunk-buffer decision,
the sequential aggregation loop (with an explicit call trace and `Except`
for thrown exceptions), the `escape`/CSV serializer, the POST control flow,
and the Zod schema validation of the generator's JSON response.
-/

namespace Flashcards

/-- A flash card record: `{ question: string; answer: string }` in the route. -/
structure FlashCard where
  question : String
  answer : String
deriving DecidableEq, Repr

/-! ## Delimited serializer

Source (route.ts lines 72-73):
  const escape = (s: string) => s.replace(/"/g, '""');
  const csv = allCards.map(({question, answer}) =>
      `"${escape(question)}","${escape(answer)}"`).join("\n");
-/

/-- Character-list form of `s.replace(/"/g, '""')`: every quote is doubled,
every other character is kept unchanged. -/
def escList : List Char → List Char
  | [] => []
  | c :: rest => if c = '"' then '"' :: '"' :: escList rest else c :: escList rest

/-- The route's `escape` arrow function on strings. -/
def escape (s : String) : String := String.mk (escList s.data)

/-- One CSV line for one record: `"<escaped question>","<escaped answer>"`. -/
def encodeRecord (r : FlashCard) : String :=
  "\"" ++ escape r.question ++ "\",\"" ++ escape r.answer ++ "\""

/-- The route's `allCards.map(...).join("\n")`: lines joined by a single
newline, empty array giving the empty string (JavaScript `[].join` is `""`). -/
def serializeCsv : List FlashCard → String
  | [] => ""
  | [r] => encodeRecord r
  | r :: r' :: rs => encodeRecord r ++ "\n" ++ serializeCsv (r' :: rs)

/-! ## Document splitter

Source (route.ts lines 43-56):
  async function splitPdf(doc, chunkSize = 100) {
    const chunks = [];
    for (let start = 0; start < totalPages; start += chunkSize) {
      const end = Math.min(start + chunkSize, totalPages);
      ... copyPages(doc, [start .. end)) ... chunks.push(chunkBytes);
    }
    return chunks;
  }
  const pdfBuffers = totalPages > 500 ? await splitPdf(masterDoc) : [pdfBuffer];

A chunk's content is determined by its page range `[start, end)`, so the
embedding records the ranges.  The `for` loop is embedded with a fuel
argument bounding its iteration count; `totalPages` iterations are always
enough when `chunkSize ≥ 1` (the route only ever uses the default 100),
so the fuel-exhausted branch is unreachable at every call site below. -/

/-- Loop body of `splitPdf`: from `start`, emit the range
`(start, min (start + chunkSize) totalPages)` and advance by `chunkSize`
while `start < totalPages`. -/
def splitGo (totalPages chunkSize : Nat) : Nat → Nat → List (Nat × Nat)
  | 0, _ => []
  | fuel + 1, start =>
    if start < totalPages then
      (start, min (start + chunkSize) totalPages) ::
        splitGo totalPages chunkSize fuel (start + chunkSize)
    else []

/-- The page-count threshold from `totalPages > 500` in the route. -/
def thresholdPages : Nat := 500

/-- The default chunk size of `splitPdf`. -/
def chunkSizePages : Nat := 100

/-- The page ranges produced by `splitPdf(masterDoc)` on a document with
`totalPages` pages. -/
def splitPdf (totalPages : Nat) : List (Nat × Nat) :=
  splitGo totalPages chunkSizePages totalPages 0

/-- A buffer handed to the generator: either the original uploaded bytes
(pushed unchanged in the `totalPages <= 500` branch) or a freshly created
document re-encoded from a page range by `copyPages` + `save`. -/
inductive PdfBuffer where
  | original (bytes : List Nat)
  | chunk (startPage endPage : Nat)
deriving DecidableEq, Repr

/-- The route's `totalPages > 500 ? await splitPdf(masterDoc) : [pdfBuffer]`. -/
def chunkBuffers (totalPages : Nat) (bytes : List Nat) : List PdfBuffer :=
  if totalPages > thresholdPages then
    (splitPdf totalPages).map (fun r => PdfBuffer.chunk r.1 r.2)
  else [PdfBuffer.original bytes]

/-! ## Aggregation loop

Source (route.ts lines 62-66):
  const allCards = [];
  for (const buf of pdfBuffers) {
    const cards = await generateFlashCardsFromPDF(buf);
    allCards.push(...cards);
  }

A rejected promise propagates out of the loop (there is no try/catch), so
the embedding returns `Except`; it also returns the list of buffers on
which `generate` was actually invoked, in invocation order. -/

/-- The sequential generation loop, with its call trace.  On the first
failing call the loop stops: the failing buffer is the last one traced and
no later buffer is touched. -/
def aggregateTrace {β ε : Type} (generate : β → Except ε (List FlashCard)) :
    List β → List β × Except ε (List FlashCard)
  | [] => ([], Except.ok [])
  | b :: bs =>
    match generate b with
    | Except.error e => ([b], Except.error e)
    | Except.ok cards =>
      match aggregateTrace generate bs with
      | (called, Except.error e) => (b :: called, Except.error e)
      | (called, Except.ok rest) => (b :: called, Except.ok (cards ++ rest))

/-! ## POST handler control flow

Source (route.ts lines 20-86).  `PDFDocument.load` and the generator call
are external; they enter the embedding as function parameters.  A thrown
exception that the handler does not catch is an `Except.error` outcome
(the handler body produces no response in that case). -/

/-- The form's `file` field: absent / not a `File`, or present with bytes. -/
inductive FormField where
  | missing
  | file (bytes : List Nat)
deriving DecidableEq, Repr

/-- An exception escaping the handler: `PDFDocument.load` threw on
unparseable bytes, or a generator call threw. -/
inductive ReqError (ε : Type) where
  | pdfLoadError
  | generatorError (e : ε)
deriving DecidableEq, Repr

/-- The response the handler constructs (status, Content-Type, body). -/
structure ApiResponse where
  status : Nat
  contentType : String
  body : String
deriving DecidableEq, Repr

/-- The POST handler: returns the trace of generator calls made and either
the constructed response or the uncaught exception.  `load` models
`PDFDocument.load` followed by `getPageCount` (`none` = the load threw). -/
def runPOST {ε : Type} (load : List Nat → Option Nat)
    (generate : PdfBuffer → Except ε (List FlashCard)) :
    FormField → List PdfBuffer × Except (ReqError ε) ApiResponse
  | FormField.missing =>
    ([], Except.ok
      { status := 400
        contentType := "application/json"
        body := "\x7b\"error\":\"Missing PDF in form‑data under field 'file'.\"\x7d" })
  | FormField.file bytes =>
    match load bytes with
    | none => ([], Except.error ReqError.pdfLoadError)
    | some totalPages =>
      match aggregateTrace generate (chunkBuffers totalPages bytes) with
      | (called, Except.error e) => (called, Except.error (ReqError.generatorError e))
      | (called, Except.ok allCards) =>
        (called, Except.ok
          { status := 200
            contentType := "text/csv; charset=utf-8"
            body := serializeCsv allCards })

/-! ## Generator response validation

Source (actions.ts):
  const FlashCardSchema = z.object({ question: z.string(), answer: z.string() });
  const FlashCardsArray = z.object({ flashcard: z.array(FlashCardSchema) });
  ...
  const jsonText = response.text;
  if (!jsonText) throw new Error("LLM response was empty");
  return FlashCardsArray.parse(JSON.parse(jsonText)).flashcard;

Zod's `z.object` in its default mode requires each declared key to be
present with a value of the declared type and strips unrecognised keys
(it does not reject them); `z.string()` rejects any non-string value. -/

/-- A JSON value (the result of `JSON.parse`); objects are key/value lists
with distinct keys in a real parse result. -/
inductive Json where
  | null
  | bool (b : Bool)
  | num (n : Int)
  | str (s : String)
  | arr (items : List Json)
  | obj (fields : List (String × Json))

/-- Zod parse of `FlashCardSchema` on one JSON value: requires an object
whose `question` and `answer` properties are strings; any other key is
stripped. -/
def parseFlashCard : Json → Except String FlashCard
  | Json.obj fields =>
    match fields.lookup "question", fields.lookup "answer" with
    | some (Json.str q), some (Json.str a) => Except.ok { question := q, answer := a }
    | _, _ => Except.error "invalid_type"
  | _ => Except.error "invalid_type"

/-- Zod parse of `z.array(FlashCardSchema)` on a list of JSON values. -/
def parseFlashCardList : List Json → Except String (List FlashCard)
  | [] => Except.ok []
  | j :: js =>
    match parseFlashCard j, parseFlashCardList js with
    | Except.ok r, Except.ok rs => Except.ok (r :: rs)
    | Except.error e, _ => Except.error e
    | _, Except.error e => Except.error e

/-- Zod parse of `FlashCardsArray` followed by `.flashcard`: requires an
object whose `flashcard` property is an array of valid records; other
top-level keys are stripped. -/
def parseFlashCardsArray : Json → Except String (List FlashCard)
  | Json.obj fields =>
    match fields.lookup "flashcard" with
    | some (Json.arr items) => parseFlashCardList items
    | _ => Except.error "invalid_type"
  | _ => Except.error "invalid_type"

/-- The tail of `generateFlashCardsFromPDF`: an empty response text throws,
otherwise the parsed JSON is validated against `FlashCardsArray`. -/
def generateFromResponse (response : Option Json) : Except String (List FlashCard) :=
  match response with
  | none => Except.error "LLM response was empty"
  | some j => parseFlashCardsArray j

/-! ## Lemmas about the splitter loop -/

theorem splitGo_eq_nil (T c fuel start : Nat) (h : T ≤ start) :
    splitGo T c fuel start = [] := by
  cases fuel with
  | zero => rfl
  | succ n => simp [splitGo, Nat.not_lt.mpr h]

theorem splitGo_ne_nil (T c fuel start : Nat) (h : splitGo T c fuel start ≠ []) :
    start < T ∧ 0 < fuel := by
  cases fuel with
  | zero => simp [splitGo] at h
  | succ n =>
    by_cases hs : start < T
    · exact ⟨hs, Nat.succ_pos n⟩
    · simp [splitGo, hs] at h

theorem splitGo_head (T c fuel start : Nat) (hs : start < T) (hf : 0 < fuel) :
    (splitGo T c fuel start).head? = some (start, min (start + c) T) := by
  cases fuel with
  | zero => omega
  | succ n => simp [splitGo, hs]

theorem splitGo_mem (T c : Nat) :
    ∀ fuel start, ∀ r ∈ splitGo T c fuel start,
      start ≤ r.1 ∧ r.1 < T ∧ r.2 = min (r.1 + c) T := by
  intro fuel
  induction fuel with
  | zero => intro start r hr; simp [splitGo] at hr
  | succ n ih =>
    intro start r hr
    by_cases hs : start < T
    · rw [splitGo, if_pos hs] at hr
      rcases List.mem_cons.mp hr with rfl | hr
      · exact ⟨Nat.le_refl _, hs, rfl⟩
      · have := ih (start + c) r hr
        exact ⟨by omega, this.2.1, this.2.2⟩
    · rw [splitGo, if_neg hs] at hr
      simp at hr

theorem splitGo_sum (T c : Nat) (hc : 0 < c) :
    ∀ fuel start, T ≤ start + fuel →
      ((splitGo T c fuel start).map (fun r => r.2 - r.1)).sum = T - start := by
  intro fuel
  induction fuel with
  | zero => intro start h; simp [splitGo]; omega
  | succ n ih =>
    intro start h
    by_cases hs : start < T
    · rw [splitGo, if_pos hs]
      simp only [List.map_cons, List.sum_cons]
      rw [ih (start + c) (by omega)]
      omega
    · rw [splitGo, if_neg hs]
      simp; omega

theorem splitGo_chain (T c : Nat) :
    ∀ fuel start, List.Chain' (fun a b : Nat × Nat => a.2 = b.1) (splitGo T c fuel start) := by
  intro fuel
  induction fuel with
  | zero => intro start; simp [splitGo]
  | succ n ih =>
    intro start
    by_cases hs : start < T
    · rw [splitGo, if_pos hs]
      refine List.chain'_cons'.mpr ⟨?_, ih (start + c)⟩
      intro y hy
      have hne : splitGo T c n (start + c) ≠ [] := by
        intro hnil; rw [hnil] at hy; simp at hy
      have h2 := (splitGo_ne_nil T c n (start + c) hne).1
      rw [splitGo_head T c n (start + c) h2 (splitGo_ne_nil T c n (start + c) hne).2] at hy
      have hyy : (start + c, min (start + c + c) T) = y := by
        simpa using hy
      subst hyy
      simp only
      omega
    · rw [splitGo, if_neg hs]
      simp

theorem splitGo_pairwise (T c : Nat) :
    ∀ fuel start, List.Pairwise (fun a b : Nat × Nat => a.2 ≤ b.1) (splitGo T c fuel start) := by
  intro fuel
  induction fuel with
  | zero => intro start; simp [splitGo]
  | succ n ih =>
    intro start
    by_cases hs : start < T
    · rw [splitGo, if_pos hs]
      refine List.pairwise_cons.mpr ⟨?_, ih (start + c)⟩
      intro b hb
      have := splitGo_mem T c n (start + c) b hb
      simp only
      omega
    · rw [splitGo, if_neg hs]
      simp

theorem splitGo_dropLast (T c : Nat) :
    ∀ fuel start, ∀ r ∈ (splitGo T c fuel start).dropLast, r.2 - r.1 = c := by
  intro fuel
  induction fuel with
  | zero => intro start r hr; simp [splitGo] at hr
  | succ n ih =>
    intro start r hr
    by_cases hs : start < T
    · rw [splitGo, if_pos hs] at hr
      rcases hrest : splitGo T c n (start + c) with _ | ⟨y, ys⟩
      · rw [hrest] at hr; simp at hr
      · rw [hrest, List.dropLast_cons₂] at hr
        rcases List.mem_cons.mp hr with rfl | hr
        · have h2 := (splitGo_ne_nil T c n (start + c) (by rw [hrest]; simp)).1
          simp only
          omega
        · have := ih (start + c) r (by rw [hrest]; exact hr)
          exact this
    · rw [splitGo, if_neg hs] at hr
      simp at hr

theorem splitGo_getLast (T c : Nat) (hc : 0 < c) :
    ∀ fuel start, start < T → T ≤ start + fuel →
      ∃ p, (splitGo T c fuel start).getLast? = some p ∧ p.2 = T ∧
        p.2 - p.1 = (if (T - start) % c = 0 then c else (T - start) % c) := by
  intro fuel
  induction fuel with
  | zero => intro start h1 h2; omega
  | succ n ih =>
    intro start h1 h2
    by_cases h3 : start + c < T
    · obtain ⟨p, hp, hpT, hplen⟩ := ih (start + c) h3 (by omega)
      have hmod : (T - start) % c = (T - (start + c)) % c := by
        have heq : T - start = (T - (start + c)) + c := by omega
        rw [heq, Nat.add_mod_right]
      refine ⟨p, ?_, hpT, by rw [hmod]; exact hplen⟩
      rw [splitGo, if_pos h1]
      have hne : splitGo T c n (start + c) ≠ [] := by
        intro hnil; rw [hnil] at hp; simp at hp
      rw [show ((start, min (start + c) T) :: splitGo T c n (start + c))
            = [(start, min (start + c) T)] ++ splitGo T c n (start + c) from rfl]
      rw [List.getLast?_append_of_ne_nil _ hne]
      exact hp
    · have hnil : splitGo T c n (start + c) = [] := splitGo_eq_nil T c n _ (by omega)
      rw [splitGo, if_pos h1, hnil]
      have hmin : min (start + c) T = T := by omega
      refine ⟨(start, T), by simp [hmin], rfl, ?_⟩
      simp only
      by_cases hm : (T - start) % c = 0
      · have hdvd : c ∣ (T - start) := Nat.dvd_of_mod_eq_zero hm
        have hle : c ≤ T - start := Nat.le_of_dvd (by omega) hdvd
        rw [if_pos hm]
        omega
      · have hlt : T - start < c := by
          rcases Nat.lt_or_ge (T - start) c with h | h
          · exact h
          · exfalso
            have : T - start = c := by omega
            rw [this, Nat.mod_self] at hm
            exact hm rfl
        rw [if_neg hm, Nat.mod_eq_of_lt hlt]

/-! ## Claim theorems -/

/-- C1: for every document with `pageCount > thresholdPages` (500), `split`
partitions `[0, pageCount)` into consecutive chunks of length
`chunkSizePages` (100) in page order, the final chunk having
`pageCount mod chunkSizePages` pages (a full chunk when it divides evenly);
the ranges are pairwise disjoint, collectively exhaustive, contiguous and
ordered, and the chunk page counts sum to `pageCount`; these ranges are
exactly the buffers the handler sends on. -/
theorem split_partitions (T : Nat) (hT : thresholdPages < T) :
    (splitPdf T).head? = some (0, chunkSizePages) ∧
    List.Chain' (fun a b : Nat × Nat => a.2 = b.1) (splitPdf T) ∧
    List.Pairwise (fun a b : Nat × Nat => a.2 ≤ b.1) (splitPdf T) ∧
    (∀ r ∈ splitPdf T, r.1 < r.2 ∧ r.2 ≤ T) ∧
    (∀ r ∈ (splitPdf T).dropLast, r.2 - r.1 = chunkSizePages) ∧
    (∃ p, (splitPdf T).getLast? = some p ∧ p.2 = T ∧
      p.2 - p.1 =
        (if T % chunkSizePages = 0 then chunkSizePages else T % chunkSizePages)) ∧
    ((splitPdf T).map (fun r => r.2 - r.1)).sum = T ∧
    (∀ bytes, chunkBuffers T bytes =
      (splitPdf T).map (fun r => PdfBuffer.chunk r.1 r.2)) := by
  have hT' : 0 < T := by
    have : thresholdPages = 500 := rfl
    omega
  have hc : 0 < chunkSizePages := by decide
  refine ⟨?_, splitGo_chain T chunkSizePages T 0, splitGo_pairwise T chunkSizePages T 0,
    ?_, splitGo_dropLast T chunkSizePages T 0, ?_, ?_, ?_⟩
  · have := splitGo_head T chunkSizePages T 0 hT' hT'
    rw [splitPdf, this]
    have : min (0 + chunkSizePages) T = chunkSizePages := by
      have h100 : chunkSizePages = 100 := rfl
      have h500 : thresholdPages = 500 := rfl
      omega
    rw [this]
  · intro r hr
    have := splitGo_mem T chunkSizePages T 0 r hr
    omega
  · have := splitGo_getLast T chunkSizePages hc T 0 hT' (by omega)
    simpa using this
  · have := splitGo_sum T chunkSizePages hc T 0 (by omega)
    simpa using this
  · intro bytes
    simp [chunkBuffers, hT]

/-- Witness for C1 at a 650-page document: seven chunks
(0-100, ..., 600-650), all properties checked concretely. -/
theorem split_partitions_witness :
    thresholdPages < 650 ∧
    ((splitPdf 650).head? = some (0, chunkSizePages) ∧
    List.Chain' (fun a b : Nat × Nat => a.2 = b.1) (splitPdf 650) ∧
    List.Pairwise (fun a b : Nat × Nat => a.2 ≤ b.1) (splitPdf 650) ∧
    (∀ r ∈ splitPdf 650, r.1 < r.2 ∧ r.2 ≤ 650) ∧
    (∀ r ∈ (splitPdf 650).dropLast, r.2 - r.1 = chunkSizePages) ∧
    (∃ p, (splitPdf 650).getLast? = some p ∧ p.2 = 650 ∧
      p.2 - p.1 =
        (if 650 % chunkSizePages = 0 then chunkSizePages else 650 % chunkSizePages)) ∧
    ((splitPdf 650).map (fun r => r.2 - r.1)).sum = 650 ∧
    (∀ bytes, chunkBuffers 650 bytes =
      (splitPdf 650).map (fun r => PdfBuffer.chunk r.1 r.2))) :=
  ⟨by decide, split_partitions 650 (by decide)⟩

/-- C2: for every document with `pageCount <= thresholdPages` (500), split
returns exactly one chunk that is the original document unmodified: the
handler's buffer list is `[pdfBuffer]`, the very buffer made of the uploaded
bytes, with no re-encoded chunk created. -/
theorem split_small_passthrough (T : Nat) (bytes : List Nat)
    (hT : T ≤ thresholdPages) :
    chunkBuffers T bytes = [PdfBuffer.original bytes] := by
  rw [chunkBuffers, if_neg (by omega)]

/-- Witness for C2: a 3-page document is passed through as its original bytes. -/
theorem split_small_passthrough_witness :
    (3 ≤ thresholdPages) ∧
      chunkBuffers 3 [7, 8, 9] = [PdfBuffer.original [7, 8, 9]] :=
  ⟨by decide, split_small_passthrough 3 [7, 8, 9] (by decide)⟩

/-- C9: a document with `pageCount = 0` does not crash the pipeline: the
split decision returns the original empty document as the single chunk, and
the aggregation loop processes it without error, yielding a 200 response
whose body is the CSV of that single generator call. -/
theorem split_zero_pages (bytes : List Nat) {ε : Type}
    (load : List Nat → Option Nat) (batches : PdfBuffer → List FlashCard)
    (hload : load bytes = some 0) :
    chunkBuffers 0 bytes = [PdfBuffer.original bytes] ∧
    aggregateTrace (ε := ε) (fun b => Except.ok (batches b))
        (chunkBuffers 0 bytes) =
      ([PdfBuffer.original bytes],
        Except.ok (batches (PdfBuffer.original bytes))) ∧
    runPOST (ε := ε) load (fun b => Except.ok (batches b)) (FormField.file bytes) =
      ([PdfBuffer.original bytes],
        Except.ok
          { status := 200
            contentType := "text/csv; charset=utf-8"
            body := serializeCsv (batches (PdfBuffer.original bytes)) }) := by
  have h1 : chunkBuffers 0 bytes = [PdfBuffer.original bytes] :=
    split_small_passthrough 0 bytes (by decide)
  have h2 : aggregateTrace (ε := ε) (fun b => Except.ok (batches b))
      (chunkBuffers 0 bytes) =
      ([PdfBuffer.original bytes],
        Except.ok (batches (PdfBuffer.original bytes))) := by
    rw [h1]
    simp [aggregateTrace]
  refine ⟨h1, h2, ?_⟩
  simp only [runPOST, hload, h2]

/-- Witness for C9 at a concrete empty document and a one-card generator. -/
theorem split_zero_pages_witness :
    ((fun _ : List Nat => some 0) [] = some 0) ∧
    (chunkBuffers 0 [] = [PdfBuffer.original []] ∧
    aggregateTrace (ε := Unit)
        (fun b => Except.ok ((fun _ => [⟨"q", "a"⟩]) b)) (chunkBuffers 0 []) =
      ([PdfBuffer.original []],
        Except.ok ((fun _ : PdfBuffer => [(⟨"q", "a"⟩ : FlashCard)])
          (PdfBuffer.original []))) ∧
    runPOST (ε := Unit) (fun _ => some 0)
        (fun b => Except.ok ((fun _ : PdfBuffer => [(⟨"q", "a"⟩ : FlashCard)]) b))
        (FormField.file []) =
      ([PdfBuffer.original []],
        Except.ok
          { status := 200
            contentType := "text/csv; charset=utf-8"
            body := serializeCsv ((fun _ : PdfBuffer => [(⟨"q", "a"⟩ : FlashCard)])
              (PdfBuffer.original [])) })) :=
  ⟨rfl, split_zero_pages [] (fun _ => some 0) (fun _ => [⟨"q", "a"⟩]) rfl⟩

/-- Helper: when every call in a prefix succeeds, the loop keeps going, and
the first failing buffer ends both the trace and the whole run. -/
theorem aggregateTrace_error_of_prefix_ok {β ε : Type}
    (gen : β → Except ε (List FlashCard)) (pre : List β) (b : β) (post : List β)
    (e : ε) (hpre : ∀ x ∈ pre, (gen x).toOption.isSome)
    (hb : gen b = Except.error e) :
    aggregateTrace gen (pre ++ b :: post) = (pre ++ [b], Except.error e) := by
  induction pre with
  | nil => simp [aggregateTrace, hb]
  | cons x xs ih =>
    have hx : (gen x).toOption.isSome := hpre x (by simp)
    obtain ⟨cards, hc⟩ : ∃ cards, gen x = Except.ok cards := by
      cases hgen : gen x with
      | ok c => exact ⟨c, rfl⟩
      | error er => rw [hgen] at hx; simp [Except.toOption] at hx
    have ihh := ih (fun y hy => hpre y (List.mem_cons_of_mem x hy))
    simp [aggregateTrace, hc, ihh]

/-- C3: the aggregation loop calls the generator once per chunk in list
order, and its result is exactly the concatenation of the returned batches
in that order; in particular two chunks at positions 0 and 1 producing one
card each yield the two cards in that order, never reversed. -/
theorem aggregate_preserves_order :
    (∀ (β ε : Type) (batches : β → List FlashCard) (bs : List β),
      aggregateTrace (ε := ε) (fun b => Except.ok (batches b)) bs
        = (bs, Except.ok (bs.flatMap batches))) ∧
    (∀ q1 a1 q2 a2 : String,
      aggregateTrace (ε := Unit)
        (fun i : Nat =>
          Except.ok (if i = 0 then [⟨q1, a1⟩] else [⟨q2, a2⟩])) [0, 1]
        = ([0, 1], Except.ok [⟨q1, a1⟩, ⟨q2, a2⟩])) := by
  constructor
  · intro β ε batches bs
    induction bs with
    | nil => rfl
    | cons b bs ih => simp [aggregateTrace, ih]
  · intro q1 a1 q2 a2
    simp [aggregateTrace]

/-- C5: if a generator call fails on some chunk after the earlier chunks
succeeded, the whole request aborts with an uncaught error: the trace shows
every earlier chunk called once and the failing chunk last, the later
chunks are never touched and nothing is retried, and the outcome carries no
response at all, hence no partial CSV. -/
theorem generator_failure_aborts {ε : Type} (load : List Nat → Option Nat)
    (gen : PdfBuffer → Except ε (List FlashCard))
    (bytes : List Nat) (T : Nat) (pre : List PdfBuffer) (b : PdfBuffer)
    (post : List PdfBuffer) (e : ε)
    (hload : load bytes = some T)
    (hbufs : chunkBuffers T bytes = pre ++ b :: post)
    (hpre : ∀ x ∈ pre, (gen x).toOption.isSome)
    (hb : gen b = Except.error e) :
    runPOST (ε := ε) load gen (FormField.file bytes) =
      (pre ++ [b], Except.error (ReqError.generatorError e)) := by
  have h1 := aggregateTrace_error_of_prefix_ok gen pre b post e hpre hb
  simp only [runPOST, hload, hbufs, h1]

/-- Witness for C5, the spec's end-to-end failure scenario: a 650-page
document splits into 7 chunks; the generator fails on chunk index 3; the
run stops after calling chunks 0-3 and returns the error, with no response
body. -/
theorem generator_failure_aborts_witness :
    ((fun _ : List Nat => some 650) [] = some 650) ∧
    (chunkBuffers 650 [] =
      [PdfBuffer.chunk 0 100, PdfBuffer.chunk 100 200, PdfBuffer.chunk 200 300] ++
        PdfBuffer.chunk 300 400 ::
          [PdfBuffer.chunk 400 500, PdfBuffer.chunk 500 600, PdfBuffer.chunk 600 650]) ∧
    (∀ x ∈ [PdfBuffer.chunk 0 100, PdfBuffer.chunk 100 200, PdfBuffer.chunk 200 300],
      (((fun buf => if buf = PdfBuffer.chunk 300 400 then Except.error () else
          Except.ok [(⟨"q", "a"⟩ : FlashCard)]) : PdfBuffer → Except Unit (List FlashCard))
        x).toOption.isSome) ∧
    (((fun buf => if buf = PdfBuffer.chunk 300 400 then Except.error () else
        Except.ok [(⟨"q", "a"⟩ : FlashCard)]) : PdfBuffer → Except Unit (List FlashCard))
      (PdfBuffer.chunk 300 400) = Except.error ()) ∧
    runPOST (ε := Unit) (fun _ => some 650)
        (fun buf => if buf = PdfBuffer.chunk 300 400 then Except.error () else
          Except.ok [(⟨"q", "a"⟩ : FlashCard)])
        (FormField.file []) =
      ([PdfBuffer.chunk 0 100, PdfBuffer.chunk 100 200, PdfBuffer.chunk 200 300] ++
        [PdfBuffer.chunk 300 400], Except.error (ReqError.generatorError ())) :=
  ⟨rfl, by decide, by decide, rfl,
    generator_failure_aborts (fun _ => some 650) _ [] 650
      [PdfBuffer.chunk 0 100, PdfBuffer.chunk 100 200, PdfBuffer.chunk 200 300]
      (PdfBuffer.chunk 300 400)
      [PdfBuffer.chunk 400 500, PdfBuffer.chunk 500 600, PdfBuffer.chunk 600 650] ()
      rfl (by decide) (by decide) rfl⟩

/-! ## Serializer lemmas -/

/-- Per-character form of the escaping rule: a quote becomes two quotes,
anything else is untouched. -/
def escChar (c : Char) : List Char := if c = '"' then ['"', '"'] else [c]

theorem escList_eq_flatMap (l : List Char) : escList l = l.flatMap escChar := by
  induction l with
  | nil => rfl
  | cons c rest ih =>
    by_cases hc : c = '"'
    · subst hc; simp [escList, escChar, ih]
    · simp [escList, escChar, hc, ih]

theorem escList_id (l : List Char) (h : ∀ c ∈ l, c ≠ '"') : escList l = l := by
  induction l with
  | nil => rfl
  | cons c rest ih =>
    have hc : c ≠ '"' := h c (by simp)
    simp [escList, hc, ih (fun x hx => h x (by simp [hx]))]

theorem escList_count (l : List Char) (c : Char) (hc : c ≠ '"') :
    (escList l).count c = l.count c := by
  induction l with
  | nil => rfl
  | cons x rest ih =>
    by_cases hx : x = '"'
    · subst hx
      simp [escList, List.count_cons, ih, hc]
    · simp [escList, hx, List.count_cons, ih]

theorem encodeRecord_data (r : FlashCard) :
    (encodeRecord r).data =
      '"' :: (escList r.question.data ++
        '"' :: ',' :: '"' :: (escList r.answer.data ++ ['"'])) := by
  show (("\"" ++ escape r.question ++ "\",\"" ++ escape r.answer ++ "\"") : String).data = _
  simp only [String.data_append, escape]
  simp [List.append_assoc]

theorem encodeRecord_data_ne_nil (r : FlashCard) : (encodeRecord r).data ≠ [] := by
  rw [encodeRecord_data]
  simp

theorem encodeRecord_count_newline (r : FlashCard)
    (hq : r.question.data.count '\n' = 0) (ha : r.answer.data.count '\n' = 0) :
    (encodeRecord r).data.count '\n' = 0 := by
  rw [encodeRecord_data]
  simp [List.count_cons, List.count_append,
    escList_count r.question.data '\n' (by decide),
    escList_count r.answer.data '\n' (by decide), hq, ha]

theorem serializeCsv_data_cons (r r' : FlashCard) (rs : List FlashCard) :
    (serializeCsv (r :: r' :: rs)).data =
      (encodeRecord r).data ++ '\n' :: (serializeCsv (r' :: rs)).data := by
  show ((encodeRecord r ++ "\n" ++ serializeCsv (r' :: rs)) : String).data = _
  simp [String.data_append]

theorem serializeCsv_getLast (rs : List FlashCard) (h : rs ≠ []) :
    (serializeCsv rs).data.getLast? = some '"' := by
  induction rs with
  | nil => exact absurd rfl h
  | cons r rest ih =>
    cases rest with
    | nil =>
      show (encodeRecord r).data.getLast? = some '"'
      rw [encodeRecord_data]
      rw [show ('"' :: (escList r.question.data ++
            '"' :: ',' :: '"' :: (escList r.answer.data ++ ['"'])))
          = ('"' :: (escList r.question.data ++
            '"' :: ',' :: '"' :: escList r.answer.data)) ++ ['"'] by simp]
      exact List.getLast?_concat _
    | cons r' rs' =>
      rw [serializeCsv_data_cons]
      have hih := ih (by simp)
      have hne : (serializeCsv (r' :: rs')).data ≠ [] := by
        intro hnil; rw [hnil] at hih; simp at hih
      rw [show ((encodeRecord r).data ++ '\n' :: (serializeCsv (r' :: rs')).data)
          = ((encodeRecord r).data ++ ['\n']) ++ (serializeCsv (r' :: rs')).data by simp]
      rw [List.getLast?_append_of_ne_nil _ hne]
      exact hih

theorem serializeCsv_count_newline (rs : List FlashCard)
    (h : ∀ r ∈ rs, r.question.data.count '\n' = 0 ∧ r.answer.data.count '\n' = 0)
    (hne : rs ≠ []) :
    (serializeCsv rs).data.count '\n' = rs.length - 1 := by
  induction rs with
  | nil => exact absurd rfl hne
  | cons r rest ih =>
    cases rest with
    | nil =>
      show (encodeRecord r).data.count '\n' = 0
      exact encodeRecord_count_newline r (h r (by simp)).1 (h r (by simp)).2
    | cons r' rs' =>
      rw [serializeCsv_data_cons]
      rw [List.count_append, List.count_cons]
      rw [encodeRecord_count_newline r (h r (by simp)).1 (h r (by simp)).2]
      rw [ih (fun x hx => h x (by simp [List.mem_cons] at hx ⊢; tauto)) (by simp)]
      simp

/-- C4: the serializer emits one line per record of the form
`"<escaped question>","<escaped answer>"` joined by single newlines with no
trailing newline and no header: escaping doubles every quote and changes no
other character (quote-free fields pass through untouched), a nonempty
output always ends with the closing quote of the last record rather than a
newline, newline-free records produce exactly one line each, and the record
`("say \"hi\"", "ok")` serializes to `"say ""hi""","ok"`. -/
theorem serialize_format :
    (∀ s : String, (escape s).data = s.data.flatMap escChar) ∧
    (∀ s : String, (∀ c ∈ s.data, c ≠ '"') → escape s = s) ∧
    (∀ rs : List FlashCard, rs ≠ [] →
      (serializeCsv rs).data.getLast? = some '"') ∧
    (∀ rs : List FlashCard,
      (∀ r ∈ rs, r.question.data.count '\n' = 0 ∧ r.answer.data.count '\n' = 0) →
      rs ≠ [] → (serializeCsv rs).data.count '\n' = rs.length - 1) ∧
    serializeCsv [⟨"say \"hi\"", "ok"⟩] = "\"say \"\"hi\"\"\",\"ok\"" := by
  refine ⟨?_, ?_, serializeCsv_getLast, serializeCsv_count_newline, by decide⟩
  · intro s
    show escList s.data = s.data.flatMap escChar
    exact escList_eq_flatMap s.data
  · intro s h
    show String.mk (escList s.data) = s
    rw [escList_id s.data h]

/-- Witness for C4 at concrete strings and records: a quoted question is
doubled, a quote-free field with comma and newline passes through, a
one-record result ends in a quote with zero newlines, and the spec's
example holds. -/
theorem serialize_format_witness :
    ((escape "say \"hi\"").data = "say \"hi\"".data.flatMap escChar) ∧
    ((∀ c ∈ "x,y\nz".data, c ≠ '"') ∧ escape "x,y\nz" = "x,y\nz") ∧
    (([(⟨"q", "a"⟩ : FlashCard)] ≠ []) ∧
      (serializeCsv [(⟨"q", "a"⟩ : FlashCard)]).data.getLast? = some '"') ∧
    ((∀ r ∈ [(⟨"q", "a"⟩ : FlashCard)],
        r.question.data.count '\n' = 0 ∧ r.answer.data.count '\n' = 0) ∧
      (serializeCsv [(⟨"q", "a"⟩ : FlashCard)]).data.count '\n' = 1 - 1) ∧
    serializeCsv [⟨"say \"hi\"", "ok"⟩] = "\"say \"\"hi\"\"\",\"ok\"" :=
  ⟨serialize_format.1 _,
    ⟨by decide, serialize_format.2.1 _ (by decide)⟩,
    ⟨by decide, serialize_format.2.2.1 _ (by decide)⟩,
    ⟨by decide, serialize_format.2.2.2.1 [⟨"q", "a"⟩] (by decide) (by decide)⟩,
    serialize_format.2.2.2.2⟩

/-- C6: the serializer is a total function of the aggregated records (it is
a plain Lean function, defined on every list); the empty aggregation
serializes to the empty text, and empty question/answer fields are valid
inputs producing the quoted empty fields. -/
theorem serialize_total_empty :
    serializeCsv [] = "" ∧
    serializeCsv [⟨"", ""⟩] = "\"\",\"\"" ∧
    encodeRecord ⟨"", ""⟩ = "\"\",\"\"" := by
  refine ⟨rfl, ?_, ?_⟩ <;> decide

/-! ## CSV decoding: the always-quoted, doubled-quote format is uniquely
decodable, which yields injectivity of the serializer. -/

/-- Read the body of a quoted field after its opening quote: a doubled
quote is a literal quote, a single quote closes the field, end of input
before the closing quote is a failure.  Returns the field content and the
input after the closing quote. -/
def fieldBody : List Char → Option (List Char × List Char)
  | [] => none
  | c :: rest =>
    if c = '"' then
      match rest with
      | [] => some ([], [])
      | c2 :: rest2 =>
        if c2 = '"' then (fieldBody rest2).map (fun p => ('"' :: p.1, p.2))
        else some ([], c2 :: rest2)
    else (fieldBody rest).map (fun p => (c :: p.1, p.2))

/-- Read one CSV record `"q","a"` from the front of the input. -/
def parseRecord (s : List Char) : Option (FlashCard × List Char) :=
  match s with
  | [] => none
  | c :: rest =>
    if c = '"' then
      match fieldBody rest with
      | some (q, c1 :: c2 :: rest2) =>
        if c1 = ',' ∧ c2 = '"' then
          match fieldBody rest2 with
          | some (a, rest3) => some (⟨String.mk q, String.mk a⟩, rest3)
          | none => none
        else none
      | _ => none
    else none

/-- Read newline-separated records until the input is exhausted; the fuel
bounds the number of records. -/
def parseLines : Nat → List Char → Option (List FlashCard)
  | _, [] => some []
  | 0, _ :: _ => none
  | fuel + 1, c :: cs =>
    match parseRecord (c :: cs) with
    | some (r, []) => some [r]
    | some (r, c2 :: rest) =>
      if c2 = '\n' then (parseLines fuel rest).map (fun rs => r :: rs)
      else none
    | none => none

/-- Full CSV decoder; inverse of `serializeCsv` on its image. -/
def decodeCsv (s : String) : Option (List FlashCard) :=
  parseLines s.data.length s.data

theorem fieldBody_round (q : List Char) :
    ∀ rest : List Char, rest.head? ≠ some '"' →
      fieldBody (escList q ++ '"' :: rest) = some (q, rest) := by
  induction q with
  | nil =>
    intro rest h
    show fieldBody ('"' :: rest) = some ([], rest)
    rw [fieldBody.eq_def]
    dsimp only
    rw [if_pos rfl]
    cases rest with
    | nil => rfl
    | cons c rest2 =>
      have hc : c ≠ '"' := by
        intro hh
        exact h (by simp [hh])
      simp [hc]
  | cons c q ih =>
    intro rest h
    by_cases hc : c = '"'
    · subst hc
      rw [show escList ('"' :: q) ++ '"' :: rest
            = '"' :: '"' :: (escList q ++ '"' :: rest) by simp [escList]]
      rw [fieldBody.eq_def]
      dsimp only
      rw [if_pos rfl]
      simp [ih rest h]
    · rw [show escList (c :: q) ++ '"' :: rest
            = c :: (escList q ++ '"' :: rest) by simp [escList, hc]]
      rw [fieldBody.eq_def]
      dsimp only
      rw [if_neg hc, ih rest h]
      rfl

theorem parseRecord_round (r : FlashCard) (rest : List Char)
    (h : rest.head? ≠ some '"') :
    parseRecord ((encodeRecord r).data ++ rest) = some (r, rest) := by
  rw [encodeRecord_data]
  rw [show ('"' :: (escList r.question.data ++
        '"' :: ',' :: '"' :: (escList r.answer.data ++ ['"']))) ++ rest
      = '"' :: (escList r.question.data ++
        '"' :: (',' :: '"' :: (escList r.answer.data ++ '"' :: rest))) by simp]
  unfold parseRecord
  dsimp only
  rw [if_pos rfl]
  rw [fieldBody_round r.question.data _ (by simp)]
  dsimp only
  rw [if_pos ⟨rfl, rfl⟩]
  rw [fieldBody_round r.answer.data rest h]

theorem parseLines_round (rs : List FlashCard) :
    ∀ fuel, (serializeCsv rs).data.length ≤ fuel →
      parseLines fuel (serializeCsv rs).data = some rs := by
  induction rs with
  | nil =>
    intro fuel _
    show parseLines fuel [] = some []
    cases fuel <;> rfl
  | cons r rest ih =>
    cases rest with
    | nil =>
      intro fuel h
      have hdata : (serializeCsv [r]).data = (encodeRecord r).data := rfl
      have hne : (encodeRecord r).data ≠ [] := encodeRecord_data_ne_nil r
      cases fuel with
      | zero =>
        rw [hdata] at h
        exact absurd (List.eq_nil_of_length_eq_zero (Nat.le_zero.mp h)) hne
      | succ n =>
        rw [hdata]
        obtain ⟨c, cs, hcs⟩ : ∃ c cs, (encodeRecord r).data = c :: cs := by
          cases hdd : (encodeRecord r).data with
          | nil => exact absurd hdd hne
          | cons c cs => exact ⟨c, cs, rfl⟩
        have hp : parseRecord ((encodeRecord r).data) = some (r, []) := by
          have := parseRecord_round r [] (by simp)
          rwa [List.append_nil] at this
        rw [hcs]
        rw [parseLines]
        rw [← hcs, hp]
    | cons r' rs' =>
      intro fuel h
      have hdata := serializeCsv_data_cons r r' rs'
      have hne := encodeRecord_data_ne_nil r
      cases fuel with
      | zero =>
        rw [hdata] at h
        simp [List.length_append] at h
      | succ n =>
        rw [hdata]
        obtain ⟨c, cs, hcs⟩ : ∃ c cs, (encodeRecord r).data = c :: cs := by
          cases hdd : (encodeRecord r).data with
          | nil => exact absurd hdd hne
          | cons c cs => exact ⟨c, cs, rfl⟩
        have hp : parseRecord ((encodeRecord r).data ++
            '\n' :: (serializeCsv (r' :: rs')).data)
            = some (r, '\n' :: (serializeCsv (r' :: rs')).data) :=
          parseRecord_round r _ (by simp)
        have hlen : (serializeCsv (r' :: rs')).data.length ≤ n := by
          rw [hdata] at h
          rw [List.length_append, List.length_cons] at h
          omega
        rw [hcs, List.cons_append]
        rw [parseLines]
        rw [← List.cons_append, ← hcs, hp]
        dsimp only
        rw [if_pos rfl]
        rw [ih n hlen]
        rfl

/-- The decoder inverts the serializer on every list of records, so the
format is uniquely decodable. -/
theorem decodeCsv_serializeCsv (rs : List FlashCard) :
    decodeCsv (serializeCsv rs) = some rs :=
  parseLines_round rs _ (Nat.le_refl _)

/-- C10: the serializer is injective on whole record lists: any two
distinct lists, differing in length or in any field, produce different CSV
texts — the always-quoted, quote-doubling encoding is uniquely decodable. -/
theorem serialize_injective (rs1 rs2 : List FlashCard) (h : rs1 ≠ rs2) :
    serializeCsv rs1 ≠ serializeCsv rs2 := by
  intro he
  apply h
  have h1 := decodeCsv_serializeCsv rs1
  have h2 := decodeCsv_serializeCsv rs2
  rw [he] at h1
  exact Option.some.inj (h1.symm.trans h2)

/-- Witness for C10: the empty list and a one-record list with embedded
comma, quote and newline give different CSV texts. -/
theorem serialize_injective_witness :
    (([] : List FlashCard) ≠ [⟨"a,\"b", "c\nd"⟩]) ∧
    serializeCsv [] ≠ serializeCsv [⟨"a,\"b", "c\nd"⟩] :=
  ⟨by decide, serialize_injective [] [⟨"a,\"b", "c\nd"⟩] (by decide)⟩

/-! ## Input validation and schema validation claims -/

/-- Counterexample to C7 as stated: for unparseable document bytes the
handler produces no response at all — `PDFDocument.load` throws and nothing
catches it — so there is no 400 client-error JSON response in that case. -/
theorem unparseable_pdf_not_400 :
    runPOST (ε := Unit) (fun _ => none) (fun _ => Except.ok [])
        (FormField.file [0]) =
      ([], Except.error ReqError.pdfLoadError) ∧
    (runPOST (ε := Unit) (fun _ => none) (fun _ => Except.ok [])
        (FormField.file [0])).2.toOption = none :=
  ⟨rfl, rfl⟩

/-- C7 as amended: a request whose `file` field is absent (or not a File)
gets the handler's 400 response with a JSON error body; a request whose
bytes do not parse as a PDF aborts with an uncaught load error — producing
no handler response, 400 or otherwise — and before any generation call is
made (the call trace is empty). -/
theorem input_validation {ε : Type} (load : List Nat → Option Nat)
    (gen : PdfBuffer → Except ε (List FlashCard)) (bytes : List Nat)
    (hload : load bytes = none) :
    runPOST (ε := ε) load gen FormField.missing =
      ([], Except.ok
        { status := 400
          contentType := "application/json"
          body := "\x7b\"error\":\"Missing PDF in form‑data under field 'file'.\"\x7d" }) ∧
    runPOST (ε := ε) load gen (FormField.file bytes) =
      ([], Except.error ReqError.pdfLoadError) := by
  refine ⟨rfl, ?_⟩
  simp [runPOST, hload]

/-- Witness for the amended C7 with a concrete failing loader. -/
theorem input_validation_witness :
    ((fun _ : List Nat => (none : Option Nat)) [0] = none) ∧
    (runPOST (ε := Unit) (fun _ => none) (fun _ => Except.ok [])
        FormField.missing =
      ([], Except.ok
        { status := 400
          contentType := "application/json"
          body := "\x7b\"error\":\"Missing PDF in form‑data under field 'file'.\"\x7d" }) ∧
    runPOST (ε := Unit) (fun _ => none) (fun _ => Except.ok [])
        (FormField.file [0]) =
      ([], Except.error ReqError.pdfLoadError)) :=
  ⟨rfl, input_validation (fun _ => none) (fun _ => Except.ok []) [0] rfl⟩

/-- Counterexample to C8 as stated: a record object carrying an extra field
is accepted — Zod's default object mode strips unknown keys instead of
rejecting them — so responses with extra fields are not rejected. -/
theorem extra_field_accepted :
    parseFlashCardsArray (Json.obj [("flashcard", Json.arr
      [Json.obj [("question", Json.str "q"), ("answer", Json.str "a"),
        ("extra", Json.str "x")]])]) =
      Except.ok [⟨"q", "a"⟩] := rfl

/-- C8 as amended: the adapter accepts a record object exactly when its
`question` and `answer` properties are strings — extra keys are stripped,
not rejected, while missing keys or non-string values fail validation; the
whole response must be an object whose `flashcard` property is an array of
such records, one record per array item; an empty response text throws. -/
theorem schema_validation :
    (∀ (fields : List (String × Json)) (r : FlashCard),
      parseFlashCard (Json.obj fields) = Except.ok r ↔
        fields.lookup "question" = some (Json.str r.question) ∧
        fields.lookup "answer" = some (Json.str r.answer)) ∧
    (∀ (j : Json) (r : FlashCard), parseFlashCard j = Except.ok r →
      ∃ fields, j = Json.obj fields) ∧
    (∀ (fields : List (String × Json)) (rs : List FlashCard),
      parseFlashCardsArray (Json.obj fields) = Except.ok rs ↔
        ∃ items, fields.lookup "flashcard" = some (Json.arr items) ∧
          parseFlashCardList items = Except.ok rs) ∧
    (∀ (items : List Json) (rs : List FlashCard),
      parseFlashCardList items = Except.ok rs → rs.length = items.length) ∧
    generateFromResponse none = Except.error "LLM response was empty" := by
  refine ⟨?_, ?_, ?_, ?_, rfl⟩
  · intro fields r
    constructor
    · intro h
      unfold parseFlashCard at h
      dsimp only at h
      split at h
      case _ q a hq ha =>
        obtain rfl : FlashCard.mk q a = r := by
          simpa using h
        exact ⟨hq, ha⟩
      case _ =>
        exact absurd h (by simp)
    · rintro ⟨hq, ha⟩
      unfold parseFlashCard
      dsimp only
      rw [hq, ha]
  · intro j r h
    cases j with
    | obj fields => exact ⟨fields, rfl⟩
    | null => exact absurd h (by simp [parseFlashCard])
    | bool b => exact absurd h (by simp [parseFlashCard])
    | num n => exact absurd h (by simp [parseFlashCard])
    | str s => exact absurd h (by simp [parseFlashCard])
    | arr items => exact absurd h (by simp [parseFlashCard])
  · intro fields rs
    constructor
    · intro h
      unfold parseFlashCardsArray at h
      dsimp only at h
      split at h
      case _ items hitems =>
        exact ⟨items, hitems, h⟩
      case _ =>
        exact absurd h (by simp)
    · rintro ⟨items, hitems, hparse⟩
      unfold parseFlashCardsArray
      dsimp only
      rw [hitems]
      exact hparse
  · intro items
    induction items with
    | nil =>
      intro rs h
      obtain rfl : rs = [] := by
        simpa [parseFlashCardList] using h.symm
      rfl
    | cons j js ih =>
      intro rs h
      unfold parseFlashCardList at h
      split at h
      · rename_i r rest hr hrest
        obtain rfl : r :: rest = rs := by
          simpa using h
        simp [ih rest hrest]
      · exact absurd h (by simp)
      · exact absurd h (by simp)

/-- Witness for the amended C8: a well-formed single-record response is an
object and yields one record per item. -/
theorem schema_validation_witness :
    (∃ fields, Json.obj [("question", Json.str "q"), ("answer", Json.str "a")]
      = Json.obj fields) ∧
    ([(⟨"q", "a"⟩ : FlashCard)].length =
      [Json.obj [("question", Json.str "q"), ("answer", Json.str "a")]].length) :=
  ⟨schema_validation.2.1 _ ⟨"q", "a"⟩ rfl,
    schema_validation.2.2.2.1 _ [⟨"q", "a"⟩] rfl⟩

end Flashcards
